import Mathlib

/-!
Shallow embedding of the ECS repository (santiago0411/ECS): the packed
`ComponentArray` (ComponentArray.hpp), the `View` (View.hpp) and the `Registry`
(Registry.hpp), together with theorems settling the specification claims.

Modelling conventions:
* Entity ids (`uint32_t`) and slot indices (`size_t`) are modelled as `Nat`;
  all values handled by the claims stay far below the wrap-around points,
  except where a comment notes otherwise.
* `std::unordered_map` is modelled as an association list with unique keys
  (`mapFind` / `mapInsert` / `mapErase`).  Iteration order of a C++
  `unordered_map` is implementation defined; the model uses the order libstdc++
  produces for small integer keys in distinct buckets: a newly inserted key
  becomes the first element of the iteration sequence, an assignment to an
  existing key keeps its position.  `operator[]` on an absent key
  default-inserts, which `mapFindOrInsert` reproduces.
* The fixed buffer `T m_ComponentArray[MAX_ENTITIES]` is modelled as a total
  function `Nat → T`, value-initialized to `default`; whether a write lands
  inside the real buffer is exactly the question `index < MAX_ENTITIES`.
-/

set_option autoImplicit false

namespace ECS

/-!
The C++ aliases `Entity` (`uint32_t`), `Index` (`size_t`) and
`ComponentTypeId` (`uint32_t`) from Common.hpp / ComponentArray.hpp are all
modelled as plain `Nat`; entity arguments are named `entity`/`e`, slot
arguments `idx`/`i` and type keys `t` to keep the roles readable.
-/

/-- C++ `constexpr uint32_t MAX_ENTITIES = 50000` (Common.hpp). -/
def MAX_ENTITIES : Nat := 50000

/-- Lookup in the association-list model of `std::unordered_map`:
first entry with the given key (keys are unique by construction). -/
def mapFind {β : Type} : List (Nat × β) → Nat → Option β
  | [], _ => none
  | (k, v) :: rest, k0 => if k = k0 then some v else mapFind rest k0

/-- Membership test, `std::unordered_map::contains`. -/
def mapContains {β : Type} (m : List (Nat × β)) (k : Nat) : Bool :=
  (mapFind m k).isSome

/-- Replace the value stored under an existing key, keeping its position. -/
def mapReplace {β : Type} : List (Nat × β) → Nat → β → List (Nat × β)
  | [], _, _ => []
  | (k, v) :: rest, k0, v0 =>
      if k = k0 then (k0, v0) :: rest else (k, v) :: mapReplace rest k0 v0

/-- Model of `m[k] = v`: assignment through `operator[]`.  An existing key keeps
its iteration position; a fresh key becomes the first element of the iteration
sequence (libstdc++ behaviour for keys hashed to distinct buckets). -/
def mapInsert {β : Type} (m : List (Nat × β)) (k : Nat) (v : β) : List (Nat × β) :=
  if mapContains m k then mapReplace m k v else (k, v) :: m

/-- Model of reading `m[k]`: returns the stored value, or default-inserts.
C++ `operator[]` value-initializes the mapped value on an absent key. -/
def mapFindOrInsert {β : Type} (m : List (Nat × β)) (k : Nat) (dflt : β) :
    β × List (Nat × β) :=
  match mapFind m k with
  | some v => (v, m)
  | none => (dflt, (k, dflt) :: m)

/-- Model of `std::unordered_map::erase`: removes the entry with the key
(keys are unique, so filtering is the same as removing the one entry). -/
def mapErase {β : Type} (m : List (Nat × β)) (k : Nat) : List (Nat × β) :=
  m.filter (fun p => decide (p.1 ≠ k))

/-- The packed component array (ComponentArray.hpp).  Field names follow the
C++ members `m_ComponentArray`, `m_EntityToIndexMap`, `m_IndexToEntityMap`,
`m_Size`. -/
structure ComponentArray (T : Type) where
  componentArray : Nat → T
  entityToIndexMap : List (Nat × Nat)
  indexToEntityMap : List (Nat × Nat)
  size : Nat

/-- Freshly constructed `ComponentArray`: `T m_ComponentArray[MAX_ENTITIES]{}`
value-initializes every slot, both maps start empty, `m_Size = 0`. -/
def ComponentArray.empty {T : Type} [Inhabited T] : ComponentArray T :=
  { componentArray := fun _ => default
    entityToIndexMap := []
    indexToEntityMap := []
    size := 0 }

/-- `ComponentArray::InsertData` (ComponentArray.hpp lines 153-168): no
presence or capacity check; always writes the maps and the dense slot at
`newIndex = m_Size` and increments `m_Size`.  The C++ function returns a
reference to the new slot; the model returns the stored value. -/
def ComponentArray.InsertData {T : Type} (s : ComponentArray T)
    (entity : Nat) (value : T) : T × ComponentArray T :=
  let newIndex : Nat := s.size
  (value,
   { componentArray := fun i => if i = newIndex then value else s.componentArray i
     entityToIndexMap := mapInsert s.entityToIndexMap entity newIndex
     indexToEntityMap := mapInsert s.indexToEntityMap newIndex entity
     size := s.size + 1 })

/-- `ComponentArray::RemoveData` (ComponentArray.hpp lines 170-186): swap-remove.
Both index reads go through `operator[]`, which default-inserts `0` on an
absent key (the contract-violation path), hence `mapFindOrInsert`.  With
`m_Size = 0` the C++ `m_Size - 1` wraps around as `size_t`; the model
truncates at `0`, and no claim exercises that state. -/
def ComponentArray.RemoveData {T : Type} (s : ComponentArray T)
    (entity : Nat) : ComponentArray T :=
  let p1 := mapFindOrInsert s.entityToIndexMap entity 0
  let indexOfRemovedEntity : Nat := p1.1
  let indexOfLastElement : Nat := s.size - 1
  let p2 := mapFindOrInsert s.indexToEntityMap indexOfLastElement 0
  let entityOfLastElement : Nat := p2.1
  { componentArray := fun i =>
      if i = indexOfRemovedEntity then s.componentArray indexOfLastElement
      else s.componentArray i
    entityToIndexMap := mapErase (mapInsert p1.2 entityOfLastElement indexOfRemovedEntity) entity
    indexToEntityMap := mapErase (mapInsert p2.2 indexOfRemovedEntity entityOfLastElement) indexOfLastElement
    size := s.size - 1 }

/-- `ComponentArray::GetData`: `m_ComponentArray[m_EntityToIndexMap[entity]]`.
On an absent entity `operator[]` default-inserts index `0` (a documented
contract violation) and slot `0` is read; the model returns that same value and
does not track the map side effect of the violating path, which no claim
observes. -/
def ComponentArray.GetData {T : Type} (s : ComponentArray T) (entity : Nat) : T :=
  s.componentArray ((mapFind s.entityToIndexMap entity).getD 0)

/-- `ComponentArray::HasData`: `m_EntityToIndexMap.contains(entity)`. -/
def ComponentArray.HasData {T : Type} (s : ComponentArray T) (entity : Nat) : Bool :=
  mapContains s.entityToIndexMap entity

/-- `ComponentArray::OnEntityDestroyed`: remove only when present. -/
def ComponentArray.OnEntityDestroyed {T : Type} (s : ComponentArray T)
    (entity : Nat) : ComponentArray T :=
  if mapContains s.entityToIndexMap entity then s.RemoveData entity else s

/-- Unfolding of the component `Iterator` (ComponentArray.hpp lines 29-86):
constructed at `m_Index = n`; `operator*` reads `m_ComponentArray[m_Index - 1]`,
`operator++` decrements `m_Index`, and iteration stops at `end()`, which holds
index `0`.  `iterFromIndex arr n` is the sequence of values such an iterator
yields. -/
def iterFromIndex {T : Type} (arr : Nat → T) : Nat → List T
  | 0 => []
  | n + 1 => arr n :: iterFromIndex arr n

/-- Sequence produced by `begin()` / `end()`: an `Iterator` starting at
`m_Size` and running down to `0`. -/
def ComponentArray.componentsToList {T : Type} (s : ComponentArray T) : List T :=
  iterFromIndex s.componentArray s.size

/-- Sequence produced by `BeginEntityIt()` / `EndEntityIt()`: the keys of
`m_EntityToIndexMap` in iteration order. -/
def ComponentArray.entitiesToList {T : Type} (s : ComponentArray T) : List Nat :=
  s.entityToIndexMap.map Prod.fst

namespace View

/-- A `View<Component...>` is a tuple of stores (`m_Arrays`); the model keeps
them as a list in declaration order, all over one value type.  `View::Contains`
folds `HasData` over every store with `&&`. -/
def Contains {T : Type} (arrays : List (ComponentArray T)) (entity : Nat) : Bool :=
  arrays.all (fun a => a.HasData entity)

/-- `View::begin` / `View::end`: the entity sequence of `std::get<0>(m_Arrays)`
only; an empty view is not constructible in C++ (`static_assert` in
`Registry::View`). -/
def entities {T : Type} (arrays : List (ComponentArray T)) : List Nat :=
  match arrays with
  | [] => []
  | a1 :: _ => a1.entitiesToList

/-- Loop body of `View::Each`: walks the first store's entity iterator while
decrementing the component iterator index (`*compIt` reads
`m_ComponentArray[m_Index - 1]`, then `++compIt` decrements).  `DispatchGet`
resolves by type equality to the component iterator for the first component
and to `GetData` on the matching store for every other component; in the
homogeneous model that dispatch is positional. -/
def eachFrom {T : Type} (a1 : ComponentArray T) (rest : List (ComponentArray T)) :
    List Nat → Nat → List (Nat × List T)
  | [], _ => []
  | e :: es, compIdx =>
      (e, a1.componentArray (compIdx - 1) :: rest.map (fun a => a.GetData e))
        :: eachFrom a1 rest es (compIdx - 1)

/-- `View::Each` (View.hpp lines 73-93).  The C++ callback receives the
components, optionally preceded by the entity; the model returns the list of
(entity, component values) pairs the successive invocations receive, which
covers both callback shapes. -/
def Each {T : Type} (arrays : List (ComponentArray T)) : List (Nat × List T) :=
  match arrays with
  | [] => []
  | a1 :: rest => eachFrom a1 rest a1.entitiesToList a1.size

end View

/-- Error taxonomy of the spec; the C++ code surfaces these as `assert`s. -/
inductive EcsError where
  | CapacityExceeded
  | InvalidEntity
deriving DecidableEq

/-- `Registry` (Registry.hpp): FIFO free-list of entity ids (`std::queue`,
head = front, push appends at the back), the live-entity counter, and the
type-id-indexed store map.  All stores are kept over one value type `V`;
the C++ heterogeneity is irrelevant to the control flow. -/
structure Registry (V : Type) where
  availableEntities : List Nat
  livingEntityCount : Nat
  componentArrays : List (Nat × ComponentArray V)

/-- `Registry::Registry` (Registry.hpp lines 21-25): pushes every id
`0 .. MAX_ENTITIES - 1` in order, so the queue front starts at `0`. -/
def Registry.init (V : Type) : Registry V :=
  { availableEntities := List.range MAX_ENTITIES
    livingEntityCount := 0
    componentArrays := [] }

/-- `Registry::CreateEntity` (Registry.hpp lines 27-36): the `assert` guards
`m_LivingEntityCount < MAX_ENTITIES` (modelled as `CapacityExceeded`); then
front/pop of the queue.  `front()` on an empty queue is C++ UB, unreachable
under the registry invariant; the model maps it to `InvalidEntity`. -/
def Registry.CreateEntity {V : Type} (r : Registry V) :
    Except EcsError (Nat × Registry V) :=
  if r.livingEntityCount < MAX_ENTITIES then
    match r.availableEntities with
    | id :: rest =>
        .ok (id, { r with availableEntities := rest
                          livingEntityCount := r.livingEntityCount + 1 })
    | [] => .error .InvalidEntity
  else .error .CapacityExceeded

/-- `Registry::DestroyEntity` (Registry.hpp lines 38-45): the `assert` guards
`entity < MAX_ENTITIES` (`InvalidEntity`); then `OnEntityDestroyed` is fanned
out to every held store, the id is pushed to the back of the free queue, and
the live counter is decremented (uint32 wrap-around on `0` is not exercised
by any claim; the model truncates at `0`). -/
def Registry.DestroyEntity {V : Type} (r : Registry V) (entity : Nat) :
    Except EcsError (Registry V) :=
  if entity < MAX_ENTITIES then
    .ok { r with
          componentArrays :=
            r.componentArrays.map (fun p => (p.1, p.2.OnEntityDestroyed entity))
          availableEntities := r.availableEntities ++ [entity]
          livingEntityCount := r.livingEntityCount - 1 }
  else .error .InvalidEntity

/-- `Registry::GetComponentArray` (Registry.hpp lines 112-121): look the store
up by type id; lazily create an empty store on first use. -/
def Registry.GetComponentArray {V : Type} [Inhabited V] (r : Registry V)
    (t : Nat) : ComponentArray V × Registry V :=
  match mapFind r.componentArrays t with
  | some a => (a, r)
  | none =>
      (ComponentArray.empty,
       { r with componentArrays := mapInsert r.componentArrays t ComponentArray.empty })

/-- `Registry::AddComponent`: delegate to `InsertData` on the store of `t`.
The C++ store is mutated through a `shared_ptr`; the model writes the updated
store back under the same key (same iteration position). -/
def Registry.AddComponent {V : Type} [Inhabited V] (r : Registry V)
    (t : Nat) (entity : Nat) (v : V) : V × Registry V :=
  let p := r.GetComponentArray t
  let q := p.1.InsertData entity v
  (q.1, { p.2 with componentArrays := mapInsert p.2.componentArrays t q.2 })

/-- `Registry::HasComponent`: delegate to `HasData`; note the store is lazily
created (the returned registry may hold a fresh empty store). -/
def Registry.HasComponent {V : Type} [Inhabited V] (r : Registry V)
    (t : Nat) (entity : Nat) : Bool × Registry V :=
  let p := r.GetComponentArray t
  (p.1.HasData entity, p.2)

/-- `Registry::GetComponent`: delegate to `GetData`. -/
def Registry.GetComponent {V : Type} [Inhabited V] (r : Registry V)
    (t : Nat) (entity : Nat) : V × Registry V :=
  let p := r.GetComponentArray t
  (p.1.GetData entity, p.2)

/-- `Registry::RemoveComponent`: delegate to `RemoveData`. -/
def Registry.RemoveComponent {V : Type} [Inhabited V] (r : Registry V)
    (t : Nat) (entity : Nat) : Registry V :=
  let p := r.GetComponentArray t
  { p.2 with componentArrays := mapInsert p.2.componentArrays t (p.1.RemoveData entity) }

/-- `Registry::View<Components...>` (Registry.hpp lines 71-76): fetch (lazily
creating) the store of each requested type, in request order; the `View` keeps
them in that order. -/
def Registry.ViewOf {V : Type} [Inhabited V] (r : Registry V) :
    List Nat → List (ComponentArray V) × Registry V
  | [] => ([], r)
  | t :: ts =>
      let p := r.GetComponentArray t
      let q := Registry.ViewOf p.2 ts
      (p.1 :: q.1, q.2)

/-- Test driver: perform `CreateEntity` a given number of times, collecting the
returned ids. -/
def Registry.createN {V : Type} : Registry V → Nat → Except EcsError (List Nat × Registry V)
  | r, 0 => .ok ([], r)
  | r, k + 1 =>
      match r.CreateEntity with
      | .ok (id, r1) =>
          match r1.createN k with
          | .ok (ids, r2) => .ok (id :: ids, r2)
          | .error err => .error err
      | .error err => .error err

/-- Uniqueness of keys, maintained by every map operation. -/
def mapKeysUnique {β : Type} (m : List (Nat × β)) : Prop :=
  m.Pairwise (fun p q => p.1 ≠ q.1)

/-! The store invariant of the spec: the two index maps are mutually inverse
over the occupied range `[0, Size)` and every slot below `Size` is occupied. -/

/-- Invariant of a `ComponentArray`: keys are unique in both maps, every
`entityToIndexMap` entry points to an occupied slot below `m_Size` whose
`indexToEntityMap` entry points back, symmetrically for `indexToEntityMap`,
and every slot in `[0, Size)` has an `indexToEntityMap` entry (gaplessness). -/
def ComponentArray.WF {T : Type} (s : ComponentArray T) : Prop :=
  mapKeysUnique s.entityToIndexMap ∧
  mapKeysUnique s.indexToEntityMap ∧
  (∀ p ∈ s.entityToIndexMap, p.2 < s.size ∧ mapFind s.indexToEntityMap p.2 = some p.1) ∧
  (∀ p ∈ s.indexToEntityMap, p.1 < s.size ∧ mapFind s.entityToIndexMap p.2 = some p.1) ∧
  (∀ i, i < s.size → mapContains s.indexToEntityMap i = true)

instance {T : Type} (s : ComponentArray T) : Decidable s.WF := by
  unfold ComponentArray.WF mapKeysUnique
  infer_instance

/-- Abstract view of a store: the partial map from entities to their component
values.  `Agrees s m` says the store's occupied slots hold exactly the present
entities' values. -/
def ComponentArray.Agrees {T : Type} (s : ComponentArray T) (m : Nat → Option T) : Prop :=
  ∀ e : Nat, m e = (mapFind s.entityToIndexMap e).map s.componentArray

/-! Operation sequences on one store, for the sequence-indexed claims. -/

/-- One client operation on a `ComponentArray`. -/
inductive StoreOp (T : Type) where
  | insert (entity : Nat) (value : T)
  | remove (entity : Nat)

/-- Apply one operation (`InsertData` / `RemoveData`). -/
def applyOp {T : Type} (s : ComponentArray T) : StoreOp T → ComponentArray T
  | .insert e v => (s.InsertData e v).2
  | .remove e => s.RemoveData e

/-- Apply a sequence of operations left to right. -/
def applyOps {T : Type} (s : ComponentArray T) : List (StoreOp T) → ComponentArray T
  | [] => s
  | op :: ops => applyOps (applyOp s op) ops

/-- Contract-respecting usage: every insert targets an absent entity and every
remove targets a present one (the spec's caller obligations). -/
def validSeq {T : Type} (s : ComponentArray T) : List (StoreOp T) → Bool
  | [] => true
  | op :: ops =>
      (match op with
       | .insert e _ => !(s.HasData e)
       | .remove e => s.HasData e) && validSeq (applyOp s op) ops

/-- Number of insert operations in a sequence. -/
def countInserts {T : Type} : List (StoreOp T) → Nat
  | [] => 0
  | .insert _ _ :: ops => countInserts ops + 1
  | .remove _ :: ops => countInserts ops

/-- Number of remove operations in a sequence. -/
def countRemoves {T : Type} : List (StoreOp T) → Nat
  | [] => 0
  | .insert _ _ :: ops => countRemoves ops
  | .remove _ :: ops => countRemoves ops + 1

/-- Specification-level effect of one operation on the abstract entity map. -/
def specApply {T : Type} (m : Nat → Option T) : StoreOp T → (Nat → Option T)
  | .insert e v => fun x => if x = e then some v else m x
  | .remove e => fun x => if x = e then none else m x

/-- Specification-level effect of a sequence. -/
def specApplyList {T : Type} (m : Nat → Option T) : List (StoreOp T) → (Nat → Option T)
  | [] => m
  | op :: ops => specApplyList (specApply m op) ops


/-- Registry state after the first two successful `CreateEntity` calls on a
fresh registry: ids 0 and 1 issued, no stores yet. -/
def regAfterCreate2 : Registry Nat :=
  { availableEntities := List.drop 2 (List.range MAX_ENTITIES)
    livingEntityCount := 2
    componentArrays := [] }

/-- Scenario 1 (the README usage example): both entities receive Uuid, Tag and
Point components -- type keys 0, 1, 2 -- with distinct values.  Values are
encoded as naturals: entity 0 gets (10, 20, 30), entity 1 gets (11, 21, 31). -/
def scenario1 : Registry Nat :=
  ((((((regAfterCreate2.AddComponent 0 0 10).2.AddComponent 1 0 20).2.AddComponent
    2 0 30).2.AddComponent 0 1 11).2.AddComponent 1 1 21).2.AddComponent 2 1 31).2

/-- Registry state after the first three successful `CreateEntity` calls. -/
def regAfterCreate3 : Registry Nat :=
  { availableEntities := List.drop 3 (List.range MAX_ENTITIES)
    livingEntityCount := 3
    componentArrays := [] }

/-- Scenario 2: Tag (type key 0) added only to entities 0 and 1; entity 2
holds no component. -/
def scenario2 : Registry Nat :=
  ((regAfterCreate3.AddComponent 0 0 100).2.AddComponent 0 1 101).2

/-! Lemmas about the association-list map model. -/

theorem mapFind_nil {β : Type} (k : Nat) : mapFind ([] : List (Nat × β)) k = none := rfl

theorem mapFind_cons {β : Type} (k : Nat) (v : β) (m : List (Nat × β)) (k0 : Nat) :
    mapFind ((k, v) :: m) k0 = if k = k0 then some v else mapFind m k0 := rfl

theorem mapFind_eq_none_iff {β : Type} (m : List (Nat × β)) (k : Nat) :
    mapFind m k = none ↔ ∀ p ∈ m, p.1 ≠ k := by
  induction m with
  | nil => simp [mapFind]
  | cons hd tl ih =>
      obtain ⟨k1, v1⟩ := hd
      by_cases h : k1 = k <;> simp [mapFind, h, ih]

theorem mapFind_some_mem {β : Type} {m : List (Nat × β)} {k : Nat} {v : β}
    (h : mapFind m k = some v) : (k, v) ∈ m := by
  induction m with
  | nil => simp [mapFind] at h
  | cons hd tl ih =>
      obtain ⟨k1, v1⟩ := hd
      by_cases hk : k1 = k
      · subst hk
        simp [mapFind] at h
        subst h
        exact List.mem_cons_self _ _
      · simp [mapFind, hk] at h
        exact List.mem_cons_of_mem _ (ih h)

theorem mapFind_of_mem {β : Type} {m : List (Nat × β)} {k : Nat} {v : β}
    (hu : mapKeysUnique m) (h : (k, v) ∈ m) : mapFind m k = some v := by
  induction m with
  | nil => simp at h
  | cons hd tl ih =>
      obtain ⟨k1, v1⟩ := hd
      rcases List.mem_cons.mp h with h1 | h1
      · cases h1
        simp [mapFind]
      · have hk : k1 ≠ k := by
          simpa using (List.pairwise_cons.mp hu).1 _ h1
        have hu' : mapKeysUnique tl := (List.pairwise_cons.mp hu).2
        simp [mapFind, hk, ih hu' h1]

theorem mapContains_iff {β : Type} (m : List (Nat × β)) (k : Nat) :
    mapContains m k = true ↔ ∃ v, mapFind m k = some v := by
  unfold mapContains
  cases mapFind m k <;> simp

theorem mapContains_false_iff {β : Type} (m : List (Nat × β)) (k : Nat) :
    mapContains m k = false ↔ mapFind m k = none := by
  unfold mapContains
  cases mapFind m k <;> simp

theorem mapFind_mapReplace_self {β : Type} (m : List (Nat × β)) (k : Nat) (v : β)
    (h : mapContains m k = true) : mapFind (mapReplace m k v) k = some v := by
  induction m with
  | nil => simp [mapContains, mapFind] at h
  | cons hd tl ih =>
      obtain ⟨k1, v1⟩ := hd
      by_cases hk : k1 = k
      · simp [mapReplace, hk, mapFind]
      · have h' : mapContains tl k = true := by
          simpa [mapContains, mapFind, hk] using h
        simp [mapReplace, hk, mapFind, ih h']

theorem mapFind_mapReplace_ne {β : Type} (m : List (Nat × β)) (k : Nat) (v : β)
    (k0 : Nat) (h : k0 ≠ k) : mapFind (mapReplace m k v) k0 = mapFind m k0 := by
  induction m with
  | nil => simp [mapReplace]
  | cons hd tl ih =>
      obtain ⟨k1, v1⟩ := hd
      by_cases hk : k1 = k
      · subst hk
        have hne : ¬ (k1 = k0) := fun hh => h hh.symm
        simp [mapReplace, mapFind, hne]
      · by_cases hk0 : k1 = k0
        · simp [mapReplace, hk, mapFind, hk0, h]
        · simp [mapReplace, hk, mapFind, hk0, ih]

theorem mapFind_mapInsert_self {β : Type} (m : List (Nat × β)) (k : Nat) (v : β) :
    mapFind (mapInsert m k v) k = some v := by
  unfold mapInsert
  by_cases h : mapContains m k
  · simp [h, mapFind_mapReplace_self m k v h]
  · simp [h, mapFind]

theorem mapFind_mapInsert_ne {β : Type} (m : List (Nat × β)) (k : Nat) (v : β)
    (k0 : Nat) (h : k0 ≠ k) : mapFind (mapInsert m k v) k0 = mapFind m k0 := by
  unfold mapInsert
  by_cases hc : mapContains m k
  · simp [hc, mapFind_mapReplace_ne m k v k0 h]
  · have hne : ¬ (k = k0) := fun hh => h hh.symm
    simp [hc, mapFind, hne]

theorem mem_mapReplace {β : Type} {m : List (Nat × β)} {k : Nat} {v : β} {p : Nat × β}
    (h : p ∈ mapReplace m k v) : p = (k, v) ∨ p ∈ m := by
  induction m with
  | nil => simp [mapReplace] at h
  | cons hd tl ih =>
      obtain ⟨k1, v1⟩ := hd
      by_cases hk : k1 = k
      · simp [mapReplace, hk] at h
        rcases h with h | h
        · exact Or.inl (by simp [h])
        · exact Or.inr (List.mem_cons_of_mem _ h)
      · simp [mapReplace, hk] at h
        rcases h with h | h
        · exact Or.inr (by simp [h])
        · rcases ih h with h1 | h1
          · exact Or.inl h1
          · exact Or.inr (List.mem_cons_of_mem _ h1)

theorem mem_mapReplace_unique {β : Type} {m : List (Nat × β)} {k : Nat} {v : β}
    {p : Nat × β} (hu : mapKeysUnique m) (h : p ∈ mapReplace m k v) :
    p = (k, v) ∨ (p ∈ m ∧ p.1 ≠ k) := by
  induction m with
  | nil => simp [mapReplace] at h
  | cons hd tl ih =>
      obtain ⟨k1, v1⟩ := hd
      have hhd := (List.pairwise_cons.mp hu).1
      have htl : mapKeysUnique tl := (List.pairwise_cons.mp hu).2
      by_cases hk : k1 = k
      · subst hk
        simp only [mapReplace, if_pos rfl] at h
        rcases List.mem_cons.mp h with h1 | h1
        · exact Or.inl h1
        · refine Or.inr ⟨List.mem_cons_of_mem _ h1, ?_⟩
          have hne := hhd _ h1
          exact fun hh => hne (by simpa using hh.symm)
      · simp only [mapReplace, if_neg hk] at h
        rcases List.mem_cons.mp h with h1 | h1
        · exact Or.inr ⟨by simp [h1], by simp [h1, hk]⟩
        · rcases ih htl h1 with h2 | h2
          · exact Or.inl h2
          · exact Or.inr ⟨List.mem_cons_of_mem _ h2.1, h2.2⟩

theorem mem_mapInsert {β : Type} {m : List (Nat × β)} {k : Nat} {v : β} {p : Nat × β}
    (hu : mapKeysUnique m) (h : p ∈ mapInsert m k v) :
    p = (k, v) ∨ (p ∈ m ∧ p.1 ≠ k) := by
  unfold mapInsert at h
  by_cases hc : mapContains m k
  · rw [if_pos hc] at h
    exact mem_mapReplace_unique hu h
  · rw [if_neg hc] at h
    rcases List.mem_cons.mp h with h1 | h1
    · exact Or.inl h1
    · refine Or.inr ⟨h1, ?_⟩
      intro hp
      have hnone : mapFind m k = none := (mapContains_false_iff m k).mp (by simpa using hc)
      exact ((mapFind_eq_none_iff m k).mp hnone p h1) hp

theorem mapKeysUnique_mapReplace {β : Type} {m : List (Nat × β)} (k : Nat) (v : β)
    (hu : mapKeysUnique m) : mapKeysUnique (mapReplace m k v) := by
  induction m with
  | nil => simpa [mapReplace] using hu
  | cons hd tl ih =>
      obtain ⟨k1, v1⟩ := hd
      have hhd := (List.pairwise_cons.mp hu).1
      have htl : mapKeysUnique tl := (List.pairwise_cons.mp hu).2
      by_cases hk : k1 = k
      · subst hk
        simp only [mapReplace, if_pos rfl]
        exact List.pairwise_cons.mpr ⟨hhd, htl⟩
      · simp only [mapReplace, if_neg hk]
        refine List.pairwise_cons.mpr ⟨?_, ih htl⟩
        intro q hq
        rcases mem_mapReplace_unique htl hq with h1 | h1
        · simpa [h1] using hk
        · exact hhd _ h1.1

theorem mapKeysUnique_mapInsert {β : Type} {m : List (Nat × β)} (k : Nat) (v : β)
    (hu : mapKeysUnique m) : mapKeysUnique (mapInsert m k v) := by
  unfold mapInsert
  by_cases hc : mapContains m k
  · rw [if_pos hc]
    exact mapKeysUnique_mapReplace k v hu
  · rw [if_neg hc]
    refine List.pairwise_cons.mpr ⟨?_, hu⟩
    intro q hq
    have hnone : mapFind m k = none := (mapContains_false_iff m k).mp (by simpa using hc)
    exact fun hh => ((mapFind_eq_none_iff m k).mp hnone q hq) hh.symm

theorem mem_mapErase {β : Type} {m : List (Nat × β)} {k : Nat} {p : Nat × β} :
    p ∈ mapErase m k ↔ p ∈ m ∧ p.1 ≠ k := by
  unfold mapErase
  simp [List.mem_filter]

theorem mapFind_mapErase_self {β : Type} (m : List (Nat × β)) (k : Nat) :
    mapFind (mapErase m k) k = none := by
  rw [mapFind_eq_none_iff]
  intro p hp
  exact (mem_mapErase.mp hp).2

theorem mapFind_mapErase_ne {β : Type} (m : List (Nat × β)) (k : Nat) (k0 : Nat)
    (h : k0 ≠ k) : mapFind (mapErase m k) k0 = mapFind m k0 := by
  induction m with
  | nil => simp [mapErase]
  | cons hd tl ih =>
      obtain ⟨k1, v1⟩ := hd
      by_cases hk : k1 = k
      · subst hk
        have : mapErase ((k1, v1) :: tl) k1 = mapErase tl k1 := by
          simp [mapErase]
        rw [this, ih, mapFind_cons, if_neg (fun hh => h hh.symm)]
      · have : mapErase ((k1, v1) :: tl) k = (k1, v1) :: mapErase tl k := by
          simp [mapErase, hk]
        rw [this, mapFind_cons, mapFind_cons]
        by_cases hk0 : k1 = k0
        · simp [hk0]
        · simp [hk0, ih]

theorem mapKeysUnique_mapErase {β : Type} {m : List (Nat × β)} (k : Nat)
    (hu : mapKeysUnique m) : mapKeysUnique (mapErase m k) :=
  List.Pairwise.sublist (List.filter_sublist m) hu

theorem mapKeysUnique_nil {β : Type} : mapKeysUnique ([] : List (Nat × β)) :=
  List.Pairwise.nil

theorem mapInsert_of_absent {β : Type} {m : List (Nat × β)} {k : Nat} (v : β)
    (h : mapContains m k = false) : mapInsert m k v = (k, v) :: m := by
  unfold mapInsert
  simp [h]

theorem empty_WF {T : Type} [Inhabited T] : (ComponentArray.empty : ComponentArray T).WF := by
  refine ⟨mapKeysUnique_nil, mapKeysUnique_nil, ?_, ?_, ?_⟩ <;>
    simp [ComponentArray.empty]

theorem empty_Agrees {T : Type} [Inhabited T] :
    (ComponentArray.empty : ComponentArray T).Agrees (fun _ => none) := by
  intro e
  simp [ComponentArray.empty, mapFind]

theorem InsertData_WF {T : Type} {s : ComponentArray T} {e : Nat} {v : T}
    (hWF : s.WF) (habs : s.HasData e = false) : ((s.InsertData e v).2).WF := by
  obtain ⟨hu1, hu2, h3, h4, h5⟩ := hWF
  have habs' : mapFind s.entityToIndexMap e = none :=
    (mapContains_false_iff _ _).mp (by simpa [ComponentArray.HasData] using habs)
  have hkeys : ∀ p ∈ s.entityToIndexMap, p.1 ≠ e := (mapFind_eq_none_iff _ _).mp habs'
  have hszabs : mapContains s.indexToEntityMap s.size = false := by
    rw [mapContains_false_iff, mapFind_eq_none_iff]
    intro p hp
    exact Nat.ne_of_lt (h4 p hp).1
  have he2i : mapInsert s.entityToIndexMap e s.size = (e, s.size) :: s.entityToIndexMap :=
    mapInsert_of_absent _ (by simpa [ComponentArray.HasData] using habs)
  have hi2e : mapInsert s.indexToEntityMap s.size e = (s.size, e) :: s.indexToEntityMap :=
    mapInsert_of_absent _ hszabs
  simp only [ComponentArray.InsertData, ComponentArray.WF, he2i, hi2e]
  refine ⟨?_, ?_, ?_, ?_, ?_⟩
  · exact List.pairwise_cons.mpr ⟨fun q hq => fun hh => hkeys q hq hh.symm, hu1⟩
  · refine List.pairwise_cons.mpr ⟨?_, hu2⟩
    intro q hq
    exact Nat.ne_of_gt (h4 q hq).1
  · intro p hp
    rcases List.mem_cons.mp hp with h | h
    · subst h
      simp [mapFind_cons]
    · refine ⟨Nat.lt_succ_of_lt (h3 p h).1, ?_⟩
      rw [mapFind_cons, if_neg (Nat.ne_of_gt (h3 p h).1), (h3 p h).2]
  · intro p hp
    rcases List.mem_cons.mp hp with h | h
    · subst h
      simp [mapFind_cons]
    · refine ⟨Nat.lt_succ_of_lt (h4 p h).1, ?_⟩
      rw [mapFind_cons, if_neg (fun hh => hkeys _ (mapFind_some_mem (h4 p h).2) (by simp [hh.symm]))]
      exact (h4 p h).2
  · intro i hi
    rcases Nat.lt_succ_iff_lt_or_eq.mp hi with h | h
    · rw [mapContains_iff]
      obtain ⟨w, hw⟩ := (mapContains_iff _ _).mp (h5 i h)
      refine ⟨w, ?_⟩
      rw [mapFind_cons, if_neg (Nat.ne_of_gt h), hw]
    · subst h
      simp [mapContains, mapFind_cons]

theorem InsertData_Agrees {T : Type} {s : ComponentArray T} {e : Nat} {v : T}
    {m : Nat → Option T} (hWF : s.WF) (habs : s.HasData e = false) (hA : s.Agrees m) :
    ((s.InsertData e v).2).Agrees (fun x => if x = e then some v else m x) := by
  obtain ⟨hu1, hu2, h3, h4, h5⟩ := hWF
  intro x
  by_cases hx : x = e
  · subst hx
    simp only [ComponentArray.InsertData, if_pos rfl]
    rw [mapFind_mapInsert_self]
    simp
  · simp only [ComponentArray.InsertData, if_neg hx]
    rw [mapFind_mapInsert_ne _ _ _ _ hx, hA x]
    cases hfind : mapFind s.entityToIndexMap x with
    | none => simp
    | some i =>
        have hi : i < s.size := (h3 _ (mapFind_some_mem hfind)).1
        simp [Nat.ne_of_lt hi]

/-! Characterization of `RemoveData` on a present entity. -/

theorem RemoveData_eq_of_present {T : Type} {s : ComponentArray T} {e : Nat}
    {idx : Nat} {eL : Nat}
    (hpres : mapFind s.entityToIndexMap e = some idx)
    (hlast : mapFind s.indexToEntityMap (s.size - 1) = some eL) :
    s.RemoveData e =
      { componentArray := fun i =>
          if i = idx then s.componentArray (s.size - 1) else s.componentArray i
        entityToIndexMap := mapErase (mapInsert s.entityToIndexMap eL idx) e
        indexToEntityMap := mapErase (mapInsert s.indexToEntityMap idx eL) (s.size - 1)
        size := s.size - 1 } := by
  simp only [ComponentArray.RemoveData, mapFindOrInsert, hpres, hlast]

theorem remove_setup {T : Type} {s : ComponentArray T} {e : Nat} {idx : Nat}
    (hWF : s.WF) (hpres : mapFind s.entityToIndexMap e = some idx) :
    idx < s.size ∧ mapFind s.indexToEntityMap idx = some e ∧
      ∃ eL, mapFind s.indexToEntityMap (s.size - 1) = some eL := by
  obtain ⟨hu1, hu2, h3, h4, h5⟩ := hWF
  have hmem := mapFind_some_mem hpres
  obtain ⟨hlt', hback'⟩ := h3 _ hmem
  refine ⟨hlt', hback', ?_⟩
  have hidx : idx < s.size := hlt'
  have hlt : s.size - 1 < s.size := by omega
  obtain ⟨w, hw⟩ := (mapContains_iff _ _).mp (h5 _ hlt)
  exact ⟨w, hw⟩

theorem remove_last_entity {T : Type} {s : ComponentArray T} {e : Nat}
    {idx : Nat} {eL : Nat}
    (hWF : s.WF) (hpres : mapFind s.entityToIndexMap e = some idx)
    (hlast : mapFind s.indexToEntityMap (s.size - 1) = some eL) :
    mapFind s.entityToIndexMap eL = some (s.size - 1) ∧ (e = eL ↔ idx = s.size - 1) := by
  obtain ⟨hu1, hu2, h3, h4, h5⟩ := hWF
  have heL := (h4 _ (mapFind_some_mem hlast)).2
  refine ⟨heL, ?_, ?_⟩
  · intro hh
    subst hh
    rw [hpres] at heL
    exact Option.some.inj heL
  · intro hh
    subst hh
    have := (h3 _ (mapFind_some_mem hpres)).2
    rw [hlast] at this
    exact (Option.some.inj this).symm

theorem remove_find_char {T : Type} {s : ComponentArray T} {e : Nat}
    {idx : Nat} {eL : Nat}
    (hpres : mapFind s.entityToIndexMap e = some idx)
    (hlast : mapFind s.indexToEntityMap (s.size - 1) = some eL) :
    mapFind (s.RemoveData e).entityToIndexMap e = none ∧
    (e ≠ eL → mapFind (s.RemoveData e).entityToIndexMap eL = some idx) ∧
    (∀ x, x ≠ e → x ≠ eL → mapFind (s.RemoveData e).entityToIndexMap x = mapFind s.entityToIndexMap x) ∧
    mapFind (s.RemoveData e).indexToEntityMap (s.size - 1) = none ∧
    (idx ≠ s.size - 1 → mapFind (s.RemoveData e).indexToEntityMap idx = some eL) ∧
    (∀ j, j ≠ s.size - 1 → j ≠ idx → mapFind (s.RemoveData e).indexToEntityMap j = mapFind s.indexToEntityMap j) := by
  rw [RemoveData_eq_of_present hpres hlast]
  refine ⟨?_, ?_, ?_, ?_, ?_, ?_⟩
  · exact mapFind_mapErase_self _ _
  · intro hne
    rw [mapFind_mapErase_ne _ _ _ (fun hh => hne hh.symm), mapFind_mapInsert_self]
  · intro x hxe hxL
    rw [mapFind_mapErase_ne _ _ _ hxe, mapFind_mapInsert_ne _ _ _ _ hxL]
  · exact mapFind_mapErase_self _ _
  · intro hne
    rw [mapFind_mapErase_ne _ _ _ hne, mapFind_mapInsert_self]
  · intro j hj hjidx
    rw [mapFind_mapErase_ne _ _ _ hj, mapFind_mapInsert_ne _ _ _ _ hjidx]

theorem RemoveData_WF {T : Type} {s : ComponentArray T} {e : Nat} {idx : Nat}
    (hWF : s.WF) (hpres : mapFind s.entityToIndexMap e = some idx) :
    (s.RemoveData e).WF := by
  obtain ⟨hidx, hi2e_idx, eL, hlast⟩ := remove_setup hWF hpres
  obtain ⟨heL2i, hiff⟩ := remove_last_entity hWF hpres hlast
  obtain ⟨hF2, hF3, hF1, hG2, hG3, hG1⟩ := remove_find_char hpres hlast
  obtain ⟨hu1, hu2, h3, h4, h5⟩ := hWF
  have heq := RemoveData_eq_of_present hpres hlast
  have hu1' : mapKeysUnique (s.RemoveData e).entityToIndexMap := by
    rw [heq]
    exact mapKeysUnique_mapErase _ (mapKeysUnique_mapInsert _ _ hu1)
  have hu2' : mapKeysUnique (s.RemoveData e).indexToEntityMap := by
    rw [heq]
    exact mapKeysUnique_mapErase _ (mapKeysUnique_mapInsert _ _ hu2)
  have hsz : (s.RemoveData e).size = s.size - 1 := by rw [heq]
  refine ⟨hu1', hu2', ?_, ?_, ?_⟩
  · intro p hp
    rw [heq] at hp
    have hp1 := mem_mapErase.mp hp
    rcases mem_mapInsert hu1 hp1.1 with hcase | hcase
    · subst hcase
      have hne : e ≠ eL := fun hh => hp1.2 (by simpa using hh.symm)
      have hidxlast : idx ≠ s.size - 1 := fun hh => hne (hiff.mpr hh)
      refine ⟨?_, ?_⟩
      · rw [hsz]
        exact lt_of_le_of_ne (Nat.le_pred_of_lt hidx) hidxlast
      · simpa using hG3 hidxlast
    · obtain ⟨hmem, hneL⟩ := hcase
      obtain ⟨hlt, hback⟩ := h3 p hmem
      have hne_idx : p.2 ≠ idx := by
        intro hh
        rw [hh, hi2e_idx] at hback
        exact hp1.2 (by simpa using (Option.some.inj hback).symm)
      have hne_last : p.2 ≠ s.size - 1 := by
        intro hh
        rw [hh, hlast] at hback
        exact hneL (by simpa using (Option.some.inj hback).symm)
      refine ⟨?_, ?_⟩
      · rw [hsz]
        exact lt_of_le_of_ne (Nat.le_pred_of_lt hlt) hne_last
      · rw [hG1 p.2 hne_last hne_idx]
        exact hback
  · intro p hp
    rw [heq] at hp
    have hp1 := mem_mapErase.mp hp
    rcases mem_mapInsert hu2 hp1.1 with hcase | hcase
    · subst hcase
      have hidxlast : idx ≠ s.size - 1 := by simpa using hp1.2
      have hne : e ≠ eL := fun hh => hidxlast (hiff.mp hh)
      refine ⟨?_, ?_⟩
      · rw [hsz]
        exact lt_of_le_of_ne (Nat.le_pred_of_lt hidx) hidxlast
      · simpa using hF3 hne
    · obtain ⟨hmem, hneidx⟩ := hcase
      obtain ⟨hlt, hback⟩ := h4 p hmem
      have hne_e : p.2 ≠ e := by
        intro hh
        rw [hh, hpres] at hback
        exact hneidx (by simpa using (Option.some.inj hback).symm)
      have hne_eL : p.2 ≠ eL := by
        intro hh
        rw [hh, heL2i] at hback
        exact hp1.2 (by simpa using (Option.some.inj hback).symm)
      have hne_last : p.1 ≠ s.size - 1 := by simpa using hp1.2
      refine ⟨?_, ?_⟩
      · rw [hsz]
        exact lt_of_le_of_ne (Nat.le_pred_of_lt hlt) hne_last
      · rw [hF1 p.2 hne_e hne_eL]
        exact hback
  · intro i hi
    rw [hsz] at hi
    have hne_last : i ≠ s.size - 1 := by omega
    by_cases hidx' : i = idx
    · subst hidx'
      rw [mapContains_iff]
      exact ⟨eL, hG3 hne_last⟩
    · rw [mapContains_iff]
      have : i < s.size := by omega
      obtain ⟨w, hw⟩ := (mapContains_iff _ _).mp (h5 i this)
      refine ⟨w, ?_⟩
      rw [hG1 i hne_last hidx']
      exact hw

theorem RemoveData_Agrees {T : Type} {s : ComponentArray T} {e : Nat} {idx : Nat}
    {m : Nat → Option T}
    (hWF : s.WF) (hpres : mapFind s.entityToIndexMap e = some idx) (hA : s.Agrees m) :
    (s.RemoveData e).Agrees (fun x => if x = e then none else m x) := by
  obtain ⟨hidx, hi2e_idx, eL, hlast⟩ := remove_setup hWF hpres
  obtain ⟨heL2i, hiff⟩ := remove_last_entity hWF hpres hlast
  obtain ⟨hF2, hF3, hF1, hG2, hG3, hG1⟩ := remove_find_char hpres hlast
  have harr : (s.RemoveData e).componentArray = fun i =>
      if i = idx then s.componentArray (s.size - 1) else s.componentArray i := by
    rw [RemoveData_eq_of_present hpres hlast]
  obtain ⟨hu1, hu2, h3, h4, h5⟩ := hWF
  intro x
  by_cases hx : x = e
  · subst hx
    rw [hF2]
    simp
  · by_cases hxL : x = eL
    · subst hxL
      have hne : e ≠ x := fun hh => hx hh.symm
      rw [hF3 hne, harr]
      simp only [if_neg hx]
      rw [hA x, heL2i]
      simp
    · rw [hF1 x hx hxL, harr]
      simp only [if_neg hx]
      rw [hA x]
      cases hfind : mapFind s.entityToIndexMap x with
      | none => simp
      | some i =>
          have hback := (h3 _ (mapFind_some_mem hfind)).2
          have hne_idx : i ≠ idx := by
            intro hh
            rw [hh, hi2e_idx] at hback
            exact hx (Option.some.inj hback).symm
          simp [hne_idx]

/-- Master invariant run: along any contract-respecting sequence the store
stays well formed, agrees with the abstract entity map, and its size changes
by exactly the insert / remove balance. -/
theorem valid_run {T : Type} (ops : List (StoreOp T)) :
    ∀ (s : ComponentArray T) (m : Nat → Option T), s.WF → s.Agrees m →
      validSeq s ops = true →
      (applyOps s ops).WF ∧ (applyOps s ops).Agrees (specApplyList m ops) ∧
      (applyOps s ops).size + countRemoves ops = s.size + countInserts ops := by
  induction ops with
  | nil =>
      intro s m hWF hA _
      exact ⟨hWF, hA, by simp [applyOps, countInserts, countRemoves]⟩
  | cons op ops ih =>
      intro s m hWF hA hvalid
      cases op with
      | insert e v =>
          have hsplit : s.HasData e = false ∧ validSeq (applyOp s (.insert e v)) ops = true := by
            simpa [validSeq, Bool.and_eq_true] using hvalid
          have hWF' : ((s.InsertData e v).2).WF := InsertData_WF hWF hsplit.1
          have hA' := InsertData_Agrees (v := v) hWF hsplit.1 hA
          have hrun := ih _ _ hWF' hA' hsplit.2
          refine ⟨hrun.1, hrun.2.1, ?_⟩
          have hbal := hrun.2.2
          have hinc : (s.InsertData e v).2.size = s.size + 1 := rfl
          simp only [applyOps, applyOp, countInserts, countRemoves] at *
          omega
      | remove e =>
          have hsplit : s.HasData e = true ∧ validSeq (applyOp s (.remove e)) ops = true := by
            simpa [validSeq, Bool.and_eq_true] using hvalid
          obtain ⟨idx, hpres⟩ := (mapContains_iff _ _).mp
            (by simpa [ComponentArray.HasData] using hsplit.1)
          have hWF' : (s.RemoveData e).WF := RemoveData_WF hWF hpres
          have hA' := RemoveData_Agrees hWF hpres hA
          have hrun := ih _ _ hWF' hA' hsplit.2
          have hidx : idx < s.size := (remove_setup hWF hpres).1
          refine ⟨hrun.1, hrun.2.1, ?_⟩
          have hbal := hrun.2.2
          have hdec : (s.RemoveData e).size = s.size - 1 := rfl
          simp only [applyOps, applyOp, countInserts, countRemoves] at *
          omega

/-! Registry-level helper lemmas. -/

theorem iterFromIndex_eq {T : Type} (arr : Nat → T) (n : Nat) :
    iterFromIndex arr n = ((List.range n).map arr).reverse := by
  induction n with
  | zero => simp [iterFromIndex]
  | succ k ih => simp [iterFromIndex, List.range_succ, ih]

theorem mapFind_map_onDestroy {V : Type} (A : List (Nat × ComponentArray V))
    (e t : Nat) :
    mapFind (A.map (fun p => (p.1, p.2.OnEntityDestroyed e))) t
      = (mapFind A t).map (fun a => a.OnEntityDestroyed e) := by
  induction A with
  | nil => simp [mapFind]
  | cons hd tl ih =>
      obtain ⟨k1, v1⟩ := hd
      by_cases h : k1 = t <;> simp [mapFind, h, ih]

theorem RemoveData_HasData_self {T : Type} (s : ComponentArray T) (e : Nat) :
    (s.RemoveData e).HasData e = false := by
  unfold ComponentArray.RemoveData ComponentArray.HasData
  rw [mapContains_false_iff]
  exact mapFind_mapErase_self _ _

theorem OnEntityDestroyed_HasData_self {T : Type} (s : ComponentArray T) (e : Nat) :
    (s.OnEntityDestroyed e).HasData e = false := by
  unfold ComponentArray.OnEntityDestroyed
  by_cases h : mapContains s.entityToIndexMap e
  · rw [if_pos h]
    exact RemoveData_HasData_self s e
  · rw [if_neg h]
    simpa [ComponentArray.HasData] using h

theorem GetComponentArray_HasData_after {V : Type} [Inhabited V] (r : Registry V)
    (tA tB e : Nat) :
    (((r.GetComponentArray tA).2.GetComponentArray tB).1).HasData e
      = ((r.GetComponentArray tB).1).HasData e := by
  cases hA : mapFind r.componentArrays tA with
  | some a => simp [Registry.GetComponentArray, hA]
  | none =>
      by_cases htB : tB = tA
      · subst htB
        simp [Registry.GetComponentArray, hA, mapFind_mapInsert_self]
      · simp only [Registry.GetComponentArray, hA]
        rw [mapFind_mapInsert_ne _ _ _ _ htB]
        cases hB : mapFind r.componentArrays tB <;> simp [hB]

theorem createN_steps {V : Type} (k : Nat) :
    ∀ (q : List Nat) (n : Nat) (arrays : List (Nat × ComponentArray V)),
      n + q.length ≤ MAX_ENTITIES → k ≤ q.length →
      Registry.createN ⟨q, n, arrays⟩ k =
        .ok (q.take k, ⟨q.drop k, n + k, arrays⟩) := by
  induction k with
  | zero =>
      intro q n arrays h1 h2
      simp [Registry.createN]
  | succ k ih =>
      intro q n arrays h1 h2
      cases q with
      | nil => simp at h2
      | cons a q2 =>
          have hlt : n < MAX_ENTITIES := by
            simp [List.length_cons] at h1
            omega
          have hrec := ih q2 (n + 1) arrays
            (by simp [List.length_cons] at h1 ⊢; omega)
            (by simpa [List.length_cons, Nat.succ_le_succ_iff] using h2)
          have harith : n + 1 + k = n + (k + 1) := by omega
          simp [Registry.createN, Registry.CreateEntity, hlt, hrec, harith]

/-! Claim theorems. -/

/-- C10: the default component iteration (`begin()` / `end()`) yields exactly
the `Size` occupied slot values, in reverse slot order -- from slot `Size - 1`
down to slot `0`: `begin()` starts the iterator at index `Size`, `operator++`
decrements it, and dereferencing reads the slot at the index minus one. -/
theorem components_iterate_reverse_order {T : Type} (s : ComponentArray T) :
    s.componentsToList = ((List.range s.size).map s.componentArray).reverse ∧
    s.componentsToList.length = s.size := by
  have h := iterFromIndex_eq s.componentArray s.size
  constructor
  · exact h
  · rw [ComponentArray.componentsToList, h]
    simp

/-- C2: along every operation sequence in which each insert targets an absent
entity and each remove a present one, the store stays well formed -- the
occupied dense slots are exactly `[0, Size)` with no gaps, `entityToSlot` and
`slotToEntity` are mutually inverse over that range
(`entityToSlot[slotToEntity[i]] = i` for every `i < Size`) -- and the dense
slots hold exactly the present entities' values (agreement with the abstract
entity-to-value map). -/
theorem store_invariant_preserved {T : Type} [Inhabited T] (ops : List (StoreOp T))
    (h : validSeq (ComponentArray.empty : ComponentArray T) ops = true) :
    (applyOps ComponentArray.empty ops).WF ∧
    (applyOps ComponentArray.empty ops).Agrees (specApplyList (fun _ => none) ops) ∧
    (∀ i, i < (applyOps ComponentArray.empty ops).size →
      ∃ e, mapFind (applyOps ComponentArray.empty ops).indexToEntityMap i = some e ∧
        mapFind (applyOps ComponentArray.empty ops).entityToIndexMap e = some i) := by
  have h1 := valid_run ops ComponentArray.empty (fun _ => none) empty_WF empty_Agrees h
  refine ⟨h1.1, h1.2.1, ?_⟩
  intro i hi
  obtain ⟨hu1, hu2, h3, h4, h5⟩ := h1.1
  obtain ⟨e, he⟩ := (mapContains_iff _ _).mp (h5 i hi)
  exact ⟨e, he, (h4 _ (mapFind_some_mem he)).2⟩

/-- Witness for C2 at the concrete sequence insert 1, insert 2, remove 1. -/
theorem store_invariant_preserved_witness :
    validSeq (ComponentArray.empty : ComponentArray Nat)
      [StoreOp.insert 1 10, StoreOp.insert 2 20, StoreOp.remove 1] = true ∧
    ((applyOps (ComponentArray.empty : ComponentArray Nat)
        [StoreOp.insert 1 10, StoreOp.insert 2 20, StoreOp.remove 1]).WF ∧
      (applyOps (ComponentArray.empty : ComponentArray Nat)
        [StoreOp.insert 1 10, StoreOp.insert 2 20, StoreOp.remove 1]).Agrees
          (specApplyList (fun _ => none)
            [StoreOp.insert 1 10, StoreOp.insert 2 20, StoreOp.remove 1]) ∧
      (∀ i, i < (applyOps (ComponentArray.empty : ComponentArray Nat)
          [StoreOp.insert 1 10, StoreOp.insert 2 20, StoreOp.remove 1]).size →
        ∃ e, mapFind (applyOps (ComponentArray.empty : ComponentArray Nat)
            [StoreOp.insert 1 10, StoreOp.insert 2 20, StoreOp.remove 1]).indexToEntityMap i = some e ∧
          mapFind (applyOps (ComponentArray.empty : ComponentArray Nat)
            [StoreOp.insert 1 10, StoreOp.insert 2 20, StoreOp.remove 1]).entityToIndexMap e = some i)) :=
  ⟨by decide, store_invariant_preserved _ (by decide)⟩

/-- C1 (counterexample): a second insert for an already-present entity does not
leave `Size` unchanged.  After `insert(1, 10); insert(1, 20)` on an empty
store, `get(1) = 20` holds, but `Size` grows from 1 to 2: the code appends a
duplicate slot instead of overwriting in place. -/
theorem insert_overwrite_counterexample :
    (((ComponentArray.empty : ComponentArray Nat).InsertData 1 10).2.InsertData 1 20).2.GetData 1 = 20 ∧
    ((ComponentArray.empty : ComponentArray Nat).InsertData 1 10).2.size = 1 ∧
    (((ComponentArray.empty : ComponentArray Nat).InsertData 1 10).2.InsertData 1 20).2.size = 2 := by
  decide

/-- C1 (amended): inserting for an already-present entity appends a fresh slot
at index `Size` and re-points the entity's `entityToSlot` entry there, so
`get(e) = v2` holds afterwards -- but `Size` increments and the entity's old
slot survives as a stale duplicate still recorded in `slotToEntity`. -/
theorem insert_present_appends {T : Type} {s : ComponentArray T} {e : Nat} (v : T)
    (hWF : s.WF) (hpres : s.HasData e = true) :
    ((s.InsertData e v).2).GetData e = v ∧
    ((s.InsertData e v).2).size = s.size + 1 ∧
    mapFind ((s.InsertData e v).2).entityToIndexMap e = some s.size ∧
    (∀ i, mapFind s.entityToIndexMap e = some i →
      i ≠ s.size ∧ mapFind ((s.InsertData e v).2).indexToEntityMap i = some e) := by
  obtain ⟨hu1, hu2, h3, h4, h5⟩ := hWF
  have hself : mapFind ((s.InsertData e v).2).entityToIndexMap e = some s.size := by
    simp only [ComponentArray.InsertData]
    exact mapFind_mapInsert_self _ _ _
  refine ⟨?_, rfl, hself, ?_⟩
  · unfold ComponentArray.GetData
    rw [hself]
    simp [ComponentArray.InsertData]
  · intro i hi
    have hlt : i < s.size := (h3 _ (mapFind_some_mem hi)).1
    refine ⟨Nat.ne_of_lt hlt, ?_⟩
    have hszabs : mapContains s.indexToEntityMap s.size = false := by
      rw [mapContains_false_iff, mapFind_eq_none_iff]
      intro p hp
      exact Nat.ne_of_lt (h4 p hp).1
    simp only [ComponentArray.InsertData]
    rw [mapInsert_of_absent _ hszabs, mapFind_cons, if_neg (Nat.ne_of_gt hlt)]
    exact (h3 _ (mapFind_some_mem hi)).2

/-- Witness for the amended C1 on a store holding entity 7 at slot 0. -/
theorem insert_present_appends_witness :
    ((((ComponentArray.empty : ComponentArray Nat).InsertData 7 1).2).WF ∧
      (((ComponentArray.empty : ComponentArray Nat).InsertData 7 1).2).HasData 7 = true) ∧
    (((((ComponentArray.empty : ComponentArray Nat).InsertData 7 1).2).InsertData 7 2).2.GetData 7 = 2 ∧
      ((((ComponentArray.empty : ComponentArray Nat).InsertData 7 1).2).InsertData 7 2).2.size =
        (((ComponentArray.empty : ComponentArray Nat).InsertData 7 1).2).size + 1 ∧
      mapFind ((((ComponentArray.empty : ComponentArray Nat).InsertData 7 1).2).InsertData 7 2).2.entityToIndexMap 7 =
        some (((ComponentArray.empty : ComponentArray Nat).InsertData 7 1).2).size ∧
      (∀ i, mapFind (((ComponentArray.empty : ComponentArray Nat).InsertData 7 1).2).entityToIndexMap 7 = some i →
        i ≠ (((ComponentArray.empty : ComponentArray Nat).InsertData 7 1).2).size ∧
        mapFind ((((ComponentArray.empty : ComponentArray Nat).InsertData 7 1).2).InsertData 7 2).2.indexToEntityMap i = some 7)) :=
  ⟨⟨by decide, by decide⟩, insert_present_appends 2 (by decide) (by decide)⟩

/-- C4: removing a present entity whose slot is not the last copies the last
occupied slot's value into the freed slot, re-points both index maps so the
previously-last entity now lives in the freed slot, erases the removed
entity's entry and the stale last-slot entry, and decrements `Size`;
afterwards the removed entity is not contained and the previously-last
entity's value is intact and reachable through `get`. -/
theorem swap_remove_spec {T : Type} {s : ComponentArray T} {e idx : Nat}
    (hWF : s.WF) (hpres : mapFind s.entityToIndexMap e = some idx)
    (hnotlast : idx ≠ s.size - 1) :
    (s.RemoveData e).HasData e = false ∧
    (s.RemoveData e).size = s.size - 1 ∧
    (s.RemoveData e).componentArray idx = s.componentArray (s.size - 1) ∧
    mapFind (s.RemoveData e).indexToEntityMap (s.size - 1) = none ∧
    ∃ eL, mapFind s.indexToEntityMap (s.size - 1) = some eL ∧
      mapFind (s.RemoveData e).entityToIndexMap eL = some idx ∧
      mapFind (s.RemoveData e).indexToEntityMap idx = some eL ∧
      (s.RemoveData e).GetData eL = s.GetData eL := by
  obtain ⟨hidx, hi2e_idx, eL, hlast⟩ := remove_setup hWF hpres
  obtain ⟨heL2i, hiff⟩ := remove_last_entity hWF hpres hlast
  obtain ⟨hF2, hF3, hF1, hG2, hG3, hG1⟩ := remove_find_char hpres hlast
  have heq := RemoveData_eq_of_present hpres hlast
  have hne : e ≠ eL := fun hh => hnotlast (hiff.mp hh)
  have harr : (s.RemoveData e).componentArray = fun i =>
      if i = idx then s.componentArray (s.size - 1) else s.componentArray i := by
    rw [heq]
  refine ⟨?_, ?_, ?_, hG2, eL, hlast, hF3 hne, hG3 hnotlast, ?_⟩
  · simp [ComponentArray.HasData, mapContains, hF2]
  · rw [heq]
  · rw [harr]
    simp
  · unfold ComponentArray.GetData
    rw [hF3 hne, heL2i, harr]
    simp

/-- Witness for C4: store with entities 1, 2, 3 at slots 0, 1, 2; remove
entity 1 (slot 0, not the last slot). -/
theorem swap_remove_spec_witness :
    (((((ComponentArray.empty : ComponentArray Nat).InsertData 1 10).2.InsertData 2 20).2.InsertData 3 30).2.WF ∧
      mapFind ((((ComponentArray.empty : ComponentArray Nat).InsertData 1 10).2.InsertData 2 20).2.InsertData 3 30).2.entityToIndexMap 1 = some 0 ∧
      (0 : Nat) ≠ ((((ComponentArray.empty : ComponentArray Nat).InsertData 1 10).2.InsertData 2 20).2.InsertData 3 30).2.size - 1) ∧
    (((((((ComponentArray.empty : ComponentArray Nat).InsertData 1 10).2.InsertData 2 20).2.InsertData 3 30).2.RemoveData 1).HasData 1 = false) ∧
      ((((((ComponentArray.empty : ComponentArray Nat).InsertData 1 10).2.InsertData 2 20).2.InsertData 3 30).2.RemoveData 1).size =
        ((((ComponentArray.empty : ComponentArray Nat).InsertData 1 10).2.InsertData 2 20).2.InsertData 3 30).2.size - 1) ∧
      ((((((ComponentArray.empty : ComponentArray Nat).InsertData 1 10).2.InsertData 2 20).2.InsertData 3 30).2.RemoveData 1).componentArray 0 =
        ((((ComponentArray.empty : ComponentArray Nat).InsertData 1 10).2.InsertData 2 20).2.InsertData 3 30).2.componentArray
          (((((ComponentArray.empty : ComponentArray Nat).InsertData 1 10).2.InsertData 2 20).2.InsertData 3 30).2.size - 1)) ∧
      (mapFind (((((ComponentArray.empty : ComponentArray Nat).InsertData 1 10).2.InsertData 2 20).2.InsertData 3 30).2.RemoveData 1).indexToEntityMap
          (((((ComponentArray.empty : ComponentArray Nat).InsertData 1 10).2.InsertData 2 20).2.InsertData 3 30).2.size - 1) = none) ∧
      ∃ eL, mapFind ((((ComponentArray.empty : ComponentArray Nat).InsertData 1 10).2.InsertData 2 20).2.InsertData 3 30).2.indexToEntityMap
          (((((ComponentArray.empty : ComponentArray Nat).InsertData 1 10).2.InsertData 2 20).2.InsertData 3 30).2.size - 1) = some eL ∧
        mapFind (((((ComponentArray.empty : ComponentArray Nat).InsertData 1 10).2.InsertData 2 20).2.InsertData 3 30).2.RemoveData 1).entityToIndexMap eL = some 0 ∧
        mapFind (((((ComponentArray.empty : ComponentArray Nat).InsertData 1 10).2.InsertData 2 20).2.InsertData 3 30).2.RemoveData 1).indexToEntityMap 0 = some eL ∧
        ((((((ComponentArray.empty : ComponentArray Nat).InsertData 1 10).2.InsertData 2 20).2.InsertData 3 30).2.RemoveData 1).GetData eL =
          ((((ComponentArray.empty : ComponentArray Nat).InsertData 1 10).2.InsertData 2 20).2.InsertData 3 30).2.GetData eL)) :=
  ⟨⟨by decide, by decide, by decide⟩, swap_remove_spec (by decide) (by decide) (by decide)⟩

/-- C3: in the two-entity scenario (the README example) with Uuid, Tag and
Point components attached to both entities with distinct values,
`view<Uuid,Tag,Point>().each(...)` invokes the callback exactly once per
entity, and each invocation receives that entity's own three component values;
in particular the first type's value, delivered in lock-step with the entity
iterator, is the value stored for that same entity.  The first conjunct pins
the two entity ids issued by the registry (0 and 1). -/
theorem view_each_scenario1 :
    (Registry.init Nat).createN 2 = .ok ([0, 1], regAfterCreate2) ∧
    (View.Each ((scenario1.ViewOf [0, 1, 2]).1)).Perm
      [(0, [10, 20, 30]), (1, [11, 21, 31])] := by
  constructor
  · have ht : (List.range MAX_ENTITIES).take 2 = [0, 1] := by
      rw [List.take_range]
      decide
    have h := createN_steps (V := Nat) 2 (List.range MAX_ENTITIES) 0 []
      (by simp) (by simp [List.length_range, MAX_ENTITIES])
    rw [show Registry.init Nat = (⟨List.range MAX_ENTITIES, 0, []⟩ : Registry Nat) from rfl,
      h, ht]
    simp [regAfterCreate2]
  · have heach : View.Each ((scenario1.ViewOf [0, 1, 2]).1)
        = [(1, [11, 21, 31]), (0, [10, 20, 30])] := by rfl
    rw [heach]
    decide

/-- C5: range iteration of a view walks the entity sequence of the first
referenced store only, in that store's entity-index iteration order, with no
filtering by the other stores (first and last conjuncts); in the concrete
scenario where only entities 0 and 1 hold Tag, `view<Tag>()` iteration yields
exactly those two entities and not entity 2 (middle conjuncts). -/
theorem view_iterates_first_store_only :
    (∀ (V : Type) [Inhabited V] (r : Registry V) (t : Nat) (ts : List Nat),
      View.entities ((r.ViewOf (t :: ts)).1) = ((r.GetComponentArray t).1).entitiesToList) ∧
    (View.entities ((scenario2.ViewOf [0]).1)).Perm [0, 1] ∧
    2 ∉ View.entities ((scenario2.ViewOf [0]).1) ∧
    View.entities ((scenario2.ViewOf [0, 5]).1) = View.entities ((scenario2.ViewOf [0]).1) := by
  refine ⟨?_, ?_, ?_, ?_⟩
  · intro V _ r t ts
    rfl
  · have h : View.entities ((scenario2.ViewOf [0]).1) = [1, 0] := by rfl
    rw [h]
    decide
  · have h : View.entities ((scenario2.ViewOf [0]).1) = [1, 0] := by rfl
    rw [h]
    decide
  · rfl

/-- C6: the free list is a FIFO initialized with 0 .. MAX_ENTITIES - 1, so the
first MAX_ENTITIES creates return 0, 1, ... in order (first conjunct);
creation fails with CapacityExceeded exactly when the live count equals
MAX_ENTITIES (second conjunct, for any reachable queue/count balance); and
after filling to capacity, destroying one live entity re-queues its id so the
next create succeeds and returns exactly that recycled id (third conjunct). -/
theorem entity_allocator_fifo_recycle :
    (Registry.init Nat).createN MAX_ENTITIES =
      .ok (List.range MAX_ENTITIES,
        { availableEntities := []
          livingEntityCount := MAX_ENTITIES
          componentArrays := [] }) ∧
    (∀ r : Registry Nat, r.livingEntityCount + r.availableEntities.length = MAX_ENTITIES →
      (r.CreateEntity = .error EcsError.CapacityExceeded ↔
        r.livingEntityCount = MAX_ENTITIES)) ∧
    (∀ (r : Registry Nat) (e : Nat), r.availableEntities = [] →
      r.livingEntityCount = MAX_ENTITIES → e < MAX_ENTITIES →
      ∃ r1, r.DestroyEntity e = .ok r1 ∧ ∃ r2, r1.CreateEntity = .ok (e, r2)) := by
  refine ⟨?_, ?_, ?_⟩
  · have h := createN_steps (V := Nat) MAX_ENTITIES (List.range MAX_ENTITIES) 0 []
      (by simp) (by simp)
    rw [show Registry.init Nat = (⟨List.range MAX_ENTITIES, 0, []⟩ : Registry Nat) from rfl, h]
    simp
  · intro r hinv
    constructor
    · intro herr
      by_contra hne
      have hle : r.livingEntityCount ≤ MAX_ENTITIES := by omega
      have hlt : r.livingEntityCount < MAX_ENTITIES := lt_of_le_of_ne hle hne
      rw [Registry.CreateEntity, if_pos hlt] at herr
      cases hq : r.availableEntities with
      | nil => rw [hq] at herr; simp at herr
      | cons a rest => rw [hq] at herr; simp at herr
    · intro heq
      rw [Registry.CreateEntity, if_neg (by omega)]
  · intro r e hq hl he
    have hdest : r.DestroyEntity e = .ok
        { availableEntities := [e]
          livingEntityCount := MAX_ENTITIES - 1
          componentArrays := r.componentArrays.map (fun p => (p.1, p.2.OnEntityDestroyed e)) } := by
      rw [Registry.DestroyEntity, if_pos he, hq, hl]
      simp
    refine ⟨_, hdest, ?_⟩
    have hlt : MAX_ENTITIES - 1 < MAX_ENTITIES := by simp [MAX_ENTITIES]
    refine ⟨{ availableEntities := []
              livingEntityCount := MAX_ENTITIES - 1 + 1
              componentArrays := r.componentArrays.map (fun p => (p.1, p.2.OnEntityDestroyed e)) }, ?_⟩
    simp [Registry.CreateEntity, hlt]

/-- Witness for C6 at the full-capacity registry (empty queue, live count at
the maximum) and the concrete entity 7. -/
theorem entity_allocator_fifo_recycle_witness :
    (((⟨[], MAX_ENTITIES, []⟩ : Registry Nat).livingEntityCount +
        (⟨[], MAX_ENTITIES, []⟩ : Registry Nat).availableEntities.length = MAX_ENTITIES) ∧
      ((⟨[], MAX_ENTITIES, []⟩ : Registry Nat).CreateEntity = .error EcsError.CapacityExceeded ↔
        (⟨[], MAX_ENTITIES, []⟩ : Registry Nat).livingEntityCount = MAX_ENTITIES)) ∧
    (((⟨[], MAX_ENTITIES, []⟩ : Registry Nat).availableEntities = []) ∧
      ((⟨[], MAX_ENTITIES, []⟩ : Registry Nat).livingEntityCount = MAX_ENTITIES) ∧
      (7 < MAX_ENTITIES) ∧
      ∃ r1, (⟨[], MAX_ENTITIES, []⟩ : Registry Nat).DestroyEntity 7 = .ok r1 ∧
        ∃ r2, r1.CreateEntity = .ok (7, r2)) :=
  ⟨⟨rfl, entity_allocator_fifo_recycle.2.1 ⟨[], MAX_ENTITIES, []⟩ rfl⟩,
   ⟨rfl, rfl, by decide,
    entity_allocator_fifo_recycle.2.2 ⟨[], MAX_ENTITIES, []⟩ 7 rfl rfl (by decide)⟩⟩

/-- Helper: a successful `CreateEntity` never touches the store map. -/
theorem CreateEntity_arrays {V : Type} {r r2 : Registry V} {i : Nat}
    (h : r.CreateEntity = .ok (i, r2)) : r2.componentArrays = r.componentArrays := by
  rw [Registry.CreateEntity] at h
  by_cases hl : r.livingEntityCount < MAX_ENTITIES
  · rw [if_pos hl] at h
    cases hq : r.availableEntities with
    | nil =>
        rw [hq] at h
        simp at h
    | cons a rest =>
        rw [hq] at h
        simp at h
        obtain ⟨h1, h2⟩ := h
        rw [← h2]
  · rw [if_neg hl] at h
    simp at h

/-- Helper: in a registry whose store map just fanned out `OnEntityDestroyed e`,
`HasComponent` for `e` is false at every type key (present stores removed the
entity; absent keys produce a fresh empty store). -/
theorem HasComponent_mapped_false {V : Type} [Inhabited V] {rr : Registry V}
    {A : List (Nat × ComponentArray V)} {e : Nat} (t : Nat)
    (h : rr.componentArrays = A.map (fun p => (p.1, p.2.OnEntityDestroyed e))) :
    (rr.HasComponent t e).1 = false := by
  simp only [Registry.HasComponent, Registry.GetComponentArray, h]
  rw [mapFind_map_onDestroy]
  cases hf : mapFind A t with
  | none => simp [ComponentArray.empty, ComponentArray.HasData, mapContains, mapFind]
  | some a => simp [OnEntityDestroyed_HasData_self]

/-- C7: view membership is the intersection of the stores -- for a two-type
view, `View.Contains e` equals `hasComponent tA e && hasComponent tB e`,
both read through the registry (which lazily creates missing stores). -/
theorem view_contains_intersection {V : Type} [Inhabited V] (r : Registry V)
    (tA tB e : Nat) :
    View.Contains ((r.ViewOf [tA, tB]).1) e
      = (((r.HasComponent tA e).1) && ((r.HasComponent tB e).1)) := by
  simp only [Registry.ViewOf, View.Contains, Registry.HasComponent,
    List.all_cons, List.all_nil]
  rw [GetComponentArray_HasData_after r tA tB e]
  simp

/-- C8: for an in-range entity, `DestroyEntity` calls `OnEntityDestroyed` on
every store currently held and then pushes the id back to the allocator queue;
afterwards `HasComponent` is false for the entity at every type key, and it
stays false in the registry returned by the next `CreateEntity`, so a freshly
created entity reusing the id starts with no components. -/
theorem destroy_clears_components {V : Type} [Inhabited V] (r : Registry V)
    (e t : Nat) (he : e < MAX_ENTITIES) :
    ∃ r1, r.DestroyEntity e = .ok r1 ∧
      r1.componentArrays = r.componentArrays.map (fun p => (p.1, p.2.OnEntityDestroyed e)) ∧
      r1.availableEntities = r.availableEntities ++ [e] ∧
      (r1.HasComponent t e).1 = false ∧
      (∀ i r2, r1.CreateEntity = .ok (i, r2) → (r2.HasComponent t e).1 = false) := by
  refine ⟨{ r with
            componentArrays := r.componentArrays.map (fun p => (p.1, p.2.OnEntityDestroyed e))
            availableEntities := r.availableEntities ++ [e]
            livingEntityCount := r.livingEntityCount - 1 }, ?_, rfl, rfl, ?_, ?_⟩
  · rw [Registry.DestroyEntity, if_pos he]
  · exact HasComponent_mapped_false t rfl
  · intro i r2 hc
    exact HasComponent_mapped_false t (by rw [CreateEntity_arrays hc])

/-- Witness for C8: destroy entity 0 (which holds the Tag component, type key
0) in the scenario-2 registry. -/
theorem destroy_clears_components_witness :
    (0 < MAX_ENTITIES) ∧
    (∃ r1, scenario2.DestroyEntity 0 = .ok r1 ∧
      r1.componentArrays = scenario2.componentArrays.map (fun p => (p.1, p.2.OnEntityDestroyed 0)) ∧
      r1.availableEntities = scenario2.availableEntities ++ [0] ∧
      (r1.HasComponent 0 0).1 = false ∧
      (∀ i r2, r1.CreateEntity = .ok (i, r2) → (r2.HasComponent 0 0).1 = false)) :=
  ⟨by decide, destroy_clears_components scenario2 0 0 (by decide)⟩

/-- C9: `InsertData` performs no capacity or presence check: even when the
entity is already present, the call writes the dense array at index `Size` and
increments `Size` (first conjunct); along every contract-respecting sequence
the size equals inserts minus removes, so the next write lands inside the
fixed MAX_ENTITIES-slot buffer exactly while that balance stays below
MAX_ENTITIES (second conjunct). -/
theorem insert_unchecked_write_bound :
    (∀ (s : ComponentArray Nat) (e v : Nat), s.HasData e = true →
      ((s.InsertData e v).2.componentArray s.size = v ∧
       (s.InsertData e v).2.size = s.size + 1)) ∧
    (∀ ops : List (StoreOp Nat),
      validSeq (ComponentArray.empty : ComponentArray Nat) ops = true →
      (applyOps (ComponentArray.empty : ComponentArray Nat) ops).size + countRemoves ops = countInserts ops ∧
      ((applyOps (ComponentArray.empty : ComponentArray Nat) ops).size < MAX_ENTITIES ↔
        countInserts ops < MAX_ENTITIES + countRemoves ops)) := by
  constructor
  · intro s e v _
    constructor
    · simp [ComponentArray.InsertData]
    · rfl
  · intro ops h
    have h1 := valid_run ops ComponentArray.empty (fun _ => none) empty_WF empty_Agrees h
    have hsz := h1.2.2
    have hempty : (ComponentArray.empty : ComponentArray Nat).size = 0 := rfl
    rw [hempty] at hsz
    constructor
    · omega
    · omega

/-- Witness for C9: a store already holding entity 4, and the sequence
insert 1, remove 1, insert 2. -/
theorem insert_unchecked_write_bound_witness :
    ((((ComponentArray.empty : ComponentArray Nat).InsertData 4 8).2.HasData 4 = true) ∧
      ((((ComponentArray.empty : ComponentArray Nat).InsertData 4 8).2.InsertData 4 9).2.componentArray
          ((ComponentArray.empty : ComponentArray Nat).InsertData 4 8).2.size = 9 ∧
        (((ComponentArray.empty : ComponentArray Nat).InsertData 4 8).2.InsertData 4 9).2.size =
          ((ComponentArray.empty : ComponentArray Nat).InsertData 4 8).2.size + 1)) ∧
    ((validSeq (ComponentArray.empty : ComponentArray Nat)
        [StoreOp.insert 1 10, StoreOp.remove 1, StoreOp.insert 2 20] = true) ∧
      ((applyOps (ComponentArray.empty : ComponentArray Nat)
          [StoreOp.insert 1 10, StoreOp.remove 1, StoreOp.insert 2 20]).size +
        countRemoves [StoreOp.insert 1 10, StoreOp.remove 1, StoreOp.insert 2 20] =
        countInserts [StoreOp.insert 1 10, StoreOp.remove 1, StoreOp.insert 2 20] ∧
      ((applyOps (ComponentArray.empty : ComponentArray Nat)
          [StoreOp.insert 1 10, StoreOp.remove 1, StoreOp.insert 2 20]).size < MAX_ENTITIES ↔
        countInserts [StoreOp.insert 1 10, StoreOp.remove 1, StoreOp.insert 2 20] <
          MAX_ENTITIES + countRemoves [StoreOp.insert 1 10, StoreOp.remove 1, StoreOp.insert 2 20]))) :=
  ⟨⟨by decide, insert_unchecked_write_bound.1 _ 4 9 (by decide)⟩,
   ⟨by decide, insert_unchecked_write_bound.2 _ (by decide)⟩⟩

end ECS

